import Mathlib

/-!
A shallow embedding of `spark_rapids_ml/params.py`: the layer that keeps a
Spark ML parameter store and a cuML constructor-parameter dictionary
(`cuml_params`) synchronized.  The Python classes `_CumlClass` (declarative
metadata) and `_CumlParams` (the synchronizer) are modelled as a
configuration record `CumlClassCfg` plus a state record `CumlParamsState`,
and each Python method becomes a Lean function over them.  Python `raise`
is modelled with `Except`; inside `set_params` the error also carries the
state at the point of the raise, because Python mutations made before a
raise persist on the object.
-/

/-- Python runtime values that flow through the parameter layer:
strings, integers, booleans and `None`. -/
inductive Value where
| vstr : String → Value
| vint : Int → Value
| vbool : Bool → Value
| vnone : Value
deriving DecidableEq, Repr

/-- Errors raised by the parameter layer.  In the Python source they are all
`ValueError` (or `KeyError` from the Spark store), distinguished by their
message shape; here each message shape is a constructor. -/
inductive PyError where
| ambiguousAlias : String → String → PyError
| unsupportedValue : Value → String → List String → PyError
| unsupportedParam : String → PyError
| keyError : String → PyError
deriving DecidableEq, Repr

namespace PDict

/-- Python `d[k]` / `d.get(k)`: first binding for the key (Python dicts have
unique keys; on lists with duplicated keys the first binding wins). -/
def get? {α : Type} : List (String × α) → String → Option α
| [], _ => none
| (k', v) :: d, k => if k' = k then some v else get? d k

/-- Python `k in d`. -/
def contains {α : Type} (d : List (String × α)) (k : String) : Bool :=
  (get? d k).isSome

/-- Python `d[k] = v`: replace the binding in place if the key exists
(Python dicts keep the key's insertion position), else append. -/
def insert {α : Type} : List (String × α) → String → α → List (String × α)
| [], k, v => [(k, v)]
| (k', v') :: d, k, v =>
  if k' = k then (k, v) :: d else (k', v') :: insert d k v

/-- Python `del d[k]` (used for clearing an explicit Spark param value). -/
def eraseKey {α : Type} (d : List (String × α)) (k : String) :
    List (String × α) :=
  d.filter (fun p => decide (p.1 ≠ k))

/-- Python `d.update(d2)`. -/
def update {α : Type} (d d2 : List (String × α)) : List (String × α) :=
  d2.foldl (fun acc p => insert acc p.1 p.2) d

/-- The keys of `d` are pairwise distinct (always true of a Python dict). -/
def NodupKeys {α : Type} (d : List (String × α)) : Prop :=
  (d.map Prod.fst).Nodup

instance {α : Type} (d : List (String × α)) : Decidable (NodupKeys d) :=
  List.nodupDecidable _

end PDict

/-- The class-level metadata of `_CumlClass`, together with the static part
of the Spark ML parameter store (`Params`): declared param names and their
registered defaults.  A native cuML class is represented by its introspected
constructor parameter list (name, default), which is what the external
introspection utility returns for it. -/
structure CumlClassCfg where
  cuml_cls : List (List (String × Value))
  param_excludes : List String
  param_mapping : List (String × String)
  param_value_mapping : List (String × List (String × Option String))
  spark_params : List String
  spark_defaults : List (String × Value)
deriving DecidableEq, Repr

/-- The mutable state of one `_CumlParams` instance: the explicitly set
Spark param values (`_paramMap` in pyspark) and the cuML parameter table
`cuml_params`. -/
structure CumlParamsState where
  paramMap : List (String × Value)
  cuml_params : List (String × Value)
deriving DecidableEq, Repr

/-- pyspark `Params.hasParam`. -/
def hasParam (cfg : CumlClassCfg) (k : String) : Bool :=
  cfg.spark_params.contains k

/-- pyspark `Params.hasDefault`. -/
def hasDefault (cfg : CumlClassCfg) (k : String) : Bool :=
  (PDict.get? cfg.spark_defaults k).isSome

/-- The current value of a Spark param given an explicit-value table: the
explicit value if set, else the registered default. -/
def currentValue? (cfg : CumlClassCfg) (pm : List (String × Value))
    (k : String) : Option Value :=
  match PDict.get? pm k with
  | some v => some v
  | none => PDict.get? cfg.spark_defaults k

/-- pyspark `Params.getOrDefault`: the explicit value if set, else the
registered default, else failure (`KeyError`). -/
def getOrDefault? (cfg : CumlClassCfg) (st : CumlParamsState) (k : String) :
    Option Value :=
  currentValue? cfg st.paramMap k

/-- pyspark `Params._set(k=v)`: record an explicit value. -/
def sparkSet (st : CumlParamsState) (k : String) (v : Value) : CumlParamsState :=
  { st with paramMap := PDict.insert st.paramMap k v }

/-- `set([x for x in value_map[k].values() if x is not None])`. -/
def supportedValues (vm : List (String × Option String)) : List String :=
  vm.filterMap Prod.snd

/-- Python `v in supported_values` where `supported_values` is a set of
strings: only a string value can be a member. -/
def isSupported (supported : List String) : Value → Bool
| .vstr s => supported.contains s
| _ => false

/-- Python `value_map[k].get(v, None)`: a non-string never matches a string
key, and both an absent key and an explicit `None` target yield `None`. -/
def vmLookup (vm : List (String × Option String)) : Value → Option String
| .vstr s => (PDict.get? vm s).join
| _ => none

/-- `_CumlParams._set_cuml_value`: store `v` under `k` in `cuml_params`,
translating it through the value mapping when one exists for `k`.  Note the
Python guard is `if mapped_v:` (truthiness), so an empty-string target is
rejected like a `None` target. -/
def set_cuml_value (cfg : CumlClassCfg) (st : CumlParamsState) (k : String)
    (v : Value) : Except PyError CumlParamsState :=
  match PDict.get? cfg.param_value_mapping k with
  | none => .ok { st with cuml_params := PDict.insert st.cuml_params k v }
  | some vm =>
    if isSupported (supportedValues vm) v then
      .ok { st with cuml_params := PDict.insert st.cuml_params k v }
    else
      match vmLookup vm v with
      | some s =>
        if s = "" then .error (.unsupportedValue v k (supportedValues vm))
        else .ok { st with cuml_params := PDict.insert st.cuml_params k (.vstr s) }
      | none => .error (.unsupportedValue v k (supportedValues vm))

/-- The pure translation step performed by `_set_cuml_value`, separated from
the table write; `set_cuml_value` stores exactly `translateValue`'s result. -/
def translateValue (cfg : CumlClassCfg) (k : String) (v : Value) :
    Except PyError Value :=
  match PDict.get? cfg.param_value_mapping k with
  | none => .ok v
  | some vm =>
    if isSupported (supportedValues vm) v then .ok v
    else
      match vmLookup vm v with
      | some s =>
        if s = "" then .error (.unsupportedValue v k (supportedValues vm))
        else .ok (.vstr s)
      | none => .error (.unsupportedValue v k (supportedValues vm))

/-- Modelled from the spec: `_get_default_params_from_func` (defined in
`spark_rapids_ml/utils.py`, outside this excerpt) introspects a native class
constructor and returns its parameter name → default value pairs, excluding
the given names; here the class is already represented by its introspected
(name, default) association list, so only the exclusion filter remains. -/
def get_default_params_from_func (cls : List (String × Value))
    (excludes : List String) : List (String × Value) :=
  cls.filter (fun p => !(excludes.contains p.1))

/-- `_CumlClass._get_cuml_params_default`: merge the introspected defaults of
every native class, later classes overriding earlier ones on collision. -/
def get_cuml_params_default (cfg : CumlClassCfg) : List (String × Value) :=
  cfg.cuml_cls.foldl
    (fun acc c => PDict.update acc (get_default_params_from_func c cfg.param_excludes)) []

/-- The loop of `initialize_cuml_params` over `_param_mapping()`. -/
def initGo (cfg : CumlClassCfg) :
    List (String × String) → CumlParamsState → Except PyError CumlParamsState
| [], st => .ok st
| (sp, cp) :: rest, st =>
  if hasDefault cfg sp then
    match getOrDefault? cfg st sp with
    | some v =>
      match set_cuml_value cfg st cp v with
      | .ok st' => initGo cfg rest st'
      | .error e => .error e
    | none => initGo cfg rest st
  else initGo cfg rest st

/-- `_CumlParams.initialize_cuml_params`: reset `cuml_params` to the
introspected defaults, then push every defaulted mapped Spark param through
the single-value setter. -/
def init_cuml_params (cfg : CumlClassCfg) (st : CumlParamsState) :
    Except PyError CumlParamsState :=
  initGo cfg cfg.param_mapping { st with cuml_params := get_cuml_params_default cfg }

/-- The alias-validation pass at the top of `set_params`: the first mapping
pair whose two distinct names both occur as keys of the batch. -/
def findAlias (cfg : CumlClassCfg) (kwargs : List (String × Value)) :
    Option (String × String) :=
  cfg.param_mapping.find? (fun p =>
    decide (p.1 ≠ p.2) && PDict.contains kwargs p.1 && PDict.contains kwargs p.2)

/-- The inner loop of the `set_params` cuml-param branch: for every mapping
pair whose native side is `k`, also set the Spark side to the raw value. -/
def backSetGo (k : String) (v : Value) :
    List (String × String) → CumlParamsState → CumlParamsState
| [], st => st
| (sp, cp) :: rest, st =>
  backSetGo k v rest (if cp = k then sparkSet st sp v else st)

/-- The second and third branches of the `set_params` per-key body (the cuml
side and the unknown-key check), run after the Spark-side branch. -/
def afterCuml (cfg : CumlClassCfg) (st : CumlParamsState) (k : String)
    (v : Value) : Except (PyError × CumlParamsState) CumlParamsState :=
  let stB :=
    if PDict.contains st.cuml_params k && !(hasParam cfg k) then
      backSetGo k v cfg.param_mapping
        { st with cuml_params := PDict.insert st.cuml_params k v }
    else st
  if !(hasParam cfg k) && !(PDict.contains cfg.param_mapping k) &&
      !(PDict.contains stB.cuml_params k) then
    .error (.unsupportedParam k, stB)
  else .ok stB

/-- The per-key body of the `set_params` loop.  On a raise the error carries
the state accumulated so far (Python keeps mutations made before a raise). -/
def setParamsStep (cfg : CumlClassCfg) (st : CumlParamsState) (k : String)
    (v : Value) : Except (PyError × CumlParamsState) CumlParamsState :=
  let stA := if hasParam cfg k then sparkSet st k v else st
  match (if hasParam cfg k then PDict.get? cfg.param_mapping k else none) with
  | some n =>
    match set_cuml_value cfg stA n v with
    | .error e => .error (e, stA)
    | .ok stB => afterCuml cfg stB k v
  | none => afterCuml cfg stA k v

/-- The `set_params` loop over the batch, aborting at the first raise. -/
def applyAll (cfg : CumlClassCfg) :
    CumlParamsState → List (String × Value) →
    Except (PyError × CumlParamsState) CumlParamsState
| st, [] => .ok st
| st, (k, v) :: rest =>
  match setParamsStep cfg st k v with
  | .ok st' => applyAll cfg st' rest
  | .error e => .error e

/-- `_CumlParams.set_params`: the alias-validation pass, then the per-key
loop.  The batch is the kwargs dict as an ordered association list. -/
def set_params (cfg : CumlClassCfg) (st : CumlParamsState)
    (kwargs : List (String × Value)) :
    Except (PyError × CumlParamsState) CumlParamsState :=
  match findAlias cfg kwargs with
  | some (sp, cp) => .error (.ambiguousAlias sp cp, st)
  | none => applyAll cfg st kwargs

/-- `_CumlParams.clear`: drop the explicit Spark value, then — when the param
is name-mapped — write `getOrDefault` straight into `cuml_params` (a direct
dict assignment in the source, not a `_set_cuml_value` call). -/
def clear (cfg : CumlClassCfg) (st : CumlParamsState) (p : String) :
    Except PyError CumlParamsState :=
  let st1 : CumlParamsState := { st with paramMap := PDict.eraseKey st.paramMap p }
  match PDict.get? cfg.param_mapping p with
  | none => .ok st1
  | some n =>
    match getOrDefault? cfg st1 p with
    | some v => .ok { st1 with cuml_params := PDict.insert st1.cuml_params n v }
    | none => .error (.keyError p)

/-- The loop of `_CumlParams._copy_cuml_params` at the table level: copy each
source binding whose key already exists in the destination table. -/
def copy_cuml_params :
    List (String × Value) → List (String × Value) → List (String × Value)
| [], dst => dst
| (k, v) :: rest, dst =>
  copy_cuml_params rest (if PDict.contains dst k then PDict.insert dst k v else dst)

/-- `_CumlParams._copy_cuml_params`: copy this instance's `cuml_params` into
another instance and return that instance. -/
def copyCumlParamsInto (src dst : CumlParamsState) : CumlParamsState :=
  { dst with cuml_params := copy_cuml_params src.cuml_params dst.cuml_params }

/-- The batch of translated (native name, value) pairs taken from the
name-mapped orchestration params that have a registered default, in mapping
order; written from the spec's description of `initialize()` (amended to the
`hasDefault` condition the code actually checks).  The first failing
translation aborts the whole computation. -/
def translatedPairs (cfg : CumlClassCfg) (pm : List (String × Value)) :
    List (String × String) → Except PyError (List (String × Value))
| [] => .ok []
| (sp, cp) :: rest =>
  match currentValue? cfg pm sp with
  | some v =>
    match translateValue cfg cp v with
    | .ok w =>
      match translatedPairs cfg pm rest with
      | .ok l => .ok ((cp, w) :: l)
      | .error e => .error e
    | .error e => .error e
  | none => translatedPairs cfg pm rest

/-- The spec's description of the table produced by `initialize()` (amended):
the introspected native defaults overlaid, in one batch, with the translated
current values of every name-mapped orchestration parameter that has a
registered default. -/
def initTableSpec (cfg : CumlClassCfg) (st : CumlParamsState) :
    Except PyError (List (String × Value)) :=
  match translatedPairs cfg st.paramMap
      (cfg.param_mapping.filter (fun p => hasDefault cfg p.1)) with
  | .ok pairs => .ok (PDict.update (get_cuml_params_default cfg) pairs)
  | .error e => .error e

/-- A LinearRegression-like example configuration, with the value mapping of
the source docstring (`squaredError → squared_loss`, `huber → None`). -/
def exCfg : CumlClassCfg :=
  { cuml_cls := [[("loss", Value.vstr "squared_loss"), ("alpha", Value.vint 1)]]
    param_excludes := []
    param_mapping := [("lossFn", "loss")]
    param_value_mapping :=
      [("loss", [("squaredError", some "squared_loss"), ("huber", none)])]
    spark_params := ["lossFn"]
    spark_defaults := [("lossFn", Value.vstr "squaredError")] }

/-- A fresh instance state: nothing set, table not yet populated. -/
def exSt0 : CumlParamsState := { paramMap := [], cuml_params := [] }

/-- The `exCfg` state right after `initialize_cuml_params`. -/
def exStInit : CumlParamsState :=
  { paramMap := []
    cuml_params := [("loss", Value.vstr "squared_loss"), ("alpha", Value.vint 1)] }

/-- An `exCfg` state with an explicit Spark value and a populated table. -/
def exStC5 : CumlParamsState :=
  { paramMap := [("lossFn", Value.vstr "x")]
    cuml_params := [("loss", Value.vstr "squared_loss")] }

/-- A configuration whose value mapping for `k` sends `a` to the empty
string, a non-null target that the Python truthiness test rejects. -/
def emptyTargetCfg : CumlClassCfg :=
  { cuml_cls := [], param_excludes := [], param_mapping := []
    param_value_mapping := [("k", [("a", some "")])]
    spark_params := [], spark_defaults := [] }

/-- A mapped Spark param `k` with no registered default. -/
def noDefaultCfg : CumlClassCfg :=
  { cuml_cls := [[("n_components", Value.vint 0)]]
    param_excludes := [], param_mapping := [("k", "n_components")]
    param_value_mapping := [], spark_params := ["k"], spark_defaults := [] }

/-- A state for `noDefaultCfg` with an explicit value for `k`. -/
def noDefaultSt : CumlParamsState :=
  { paramMap := [("k", Value.vint 5)], cuml_params := [] }

/-- The spec scenario: orchestration `k` maps to native `n_components` and
defaults to 3. -/
def scenarioCfg : CumlClassCfg :=
  { cuml_cls := [[("n_components", Value.vint 1)]]
    param_excludes := [], param_mapping := [("k", "n_components")]
    param_value_mapping := [], spark_params := ["k"]
    spark_defaults := [("k", Value.vint 3)] }

/-- Two native classes sharing constructor parameter `x`, with defaults 1
and 2 respectively. -/
def mergeCfg : CumlClassCfg :=
  { cuml_cls := [[("x", Value.vint 1)], [("x", Value.vint 2)]]
    param_excludes := [], param_mapping := [], param_value_mapping := []
    spark_params := [], spark_defaults := [] }

namespace PDict

theorem get?_cons {α : Type} (a : String) (b : α) (d : List (String × α))
    (k : String) : get? ((a, b) :: d) k = if a = k then some b else get? d k := rfl

theorem get?_eq_none {α : Type} {d : List (String × α)} {k : String} :
    get? d k = none ↔ ∀ p ∈ d, p.1 ≠ k := by
  induction d with
  | nil => simp [get?]
  | cons q d ih =>
    obtain ⟨a, b⟩ := q
    by_cases hak : a = k
    · simp [get?_cons, hak]
    · simp [get?_cons, hak, ih]

theorem get?_insert {α : Type} (d : List (String × α)) (k k' : String) (v : α) :
    get? (insert d k v) k' = if k' = k then some v else get? d k' := by
  induction d with
  | nil =>
    simp only [insert]
    rw [get?_cons]
    by_cases hk : k' = k
    · rw [if_pos hk.symm, if_pos hk]
    · rw [if_neg (fun h => hk h.symm), if_neg hk]
  | cons q d ih =>
    obtain ⟨a, b⟩ := q
    simp only [insert]
    by_cases hak : a = k
    · rw [if_pos hak, get?_cons]
      by_cases hk : k' = k
      · rw [if_pos hk.symm, if_pos hk]
      · rw [if_neg (fun h => hk h.symm), if_neg hk, get?_cons,
          if_neg (fun h => hk (h.symm.trans hak))]
    · rw [if_neg hak, get?_cons]
      by_cases ha2 : a = k'
      · have hk2 : ¬ k' = k := fun h => hak (ha2.trans h)
        rw [if_pos ha2, if_neg hk2, get?_cons, if_pos ha2]
      · rw [if_neg ha2, ih]
        by_cases hk : k' = k
        · rw [if_pos hk, if_pos hk]
        · rw [if_neg hk, if_neg hk, get?_cons, if_neg ha2]

theorem get?_insert_self {α : Type} {d : List (String × α)} {k : String}
    {v : α} : get? (insert d k v) k = some v := by
  rw [get?_insert, if_pos rfl]

theorem get?_insert_ne {α : Type} {d : List (String × α)} {k k' : String}
    {v : α} (h : k' ≠ k) : get? (insert d k v) k' = get? d k' := by
  rw [get?_insert, if_neg h]

theorem contains_insert_self {α : Type} {d : List (String × α)} {k : String}
    {v : α} : contains (insert d k v) k = true := by
  simp only [contains, get?_insert_self, Option.isSome_some]

theorem contains_insert_ne {α : Type} {d : List (String × α)} {k k' : String}
    {v : α} (h : k' ≠ k) : contains (insert d k v) k' = contains d k' := by
  simp only [contains, get?_insert_ne h]

theorem insert_of_get? {α : Type} {d : List (String × α)} {k : String} {v : α}
    (h : get? d k = some v) : insert d k v = d := by
  induction d with
  | nil => simp [get?] at h
  | cons q d ih =>
    obtain ⟨a, b⟩ := q
    by_cases hak : a = k
    · subst hak
      rw [get?_cons, if_pos rfl] at h
      obtain rfl : b = v := by injection h
      simp [insert]
    · rw [get?_cons, if_neg hak] at h
      simp only [insert, if_neg hak]
      rw [ih h]

theorem get?_eraseKey {α : Type} (d : List (String × α)) (k k' : String) :
    get? (eraseKey d k) k' = if k' = k then none else get? d k' := by
  induction d with
  | nil => simp [eraseKey, get?]
  | cons q d ih =>
    obtain ⟨a, b⟩ := q
    by_cases hak : a = k
    · subst hak
      simp only [eraseKey, List.filter_cons, decide_eq_true_eq] at ih ⊢
      rw [if_neg (by simp)]
      by_cases hk : k' = a
      · subst hk
        rw [if_pos rfl] at ih ⊢
        exact ih
      · rw [if_neg hk] at ih ⊢
        rw [get?_cons, if_neg (fun h => hk h.symm)]
        exact ih
    · simp only [eraseKey, List.filter_cons, decide_eq_true_eq] at ih ⊢
      rw [if_pos (by simp [hak])]
      by_cases hk : k' = k
      · subst hk
        rw [if_pos rfl] at ih ⊢
        rw [get?_cons, if_neg hak]
        exact ih
      · rw [if_neg hk] at ih ⊢
        rw [get?_cons, get?_cons, ih]

theorem mem_of_get?_eq_some {α : Type} {d : List (String × α)} {k : String}
    {v : α} (h : get? d k = some v) : (k, v) ∈ d := by
  induction d with
  | nil => simp [get?] at h
  | cons q d ih =>
    obtain ⟨a, b⟩ := q
    by_cases hak : a = k
    · subst hak
      rw [get?_cons, if_pos rfl] at h
      obtain rfl : b = v := by injection h
      exact List.mem_cons_self _ _
    · rw [get?_cons, if_neg hak] at h
      exact List.mem_cons_of_mem _ (ih h)

theorem update_nil {α : Type} (d : List (String × α)) : update d [] = d := rfl

theorem update_cons {α : Type} (d d2 : List (String × α)) (a : String) (b : α) :
    update d ((a, b) :: d2) = update (insert d a b) d2 := rfl

theorem get?_eq_none_of_not_mem_keys {α : Type} {d : List (String × α)}
    {k : String} (h : k ∉ d.map Prod.fst) : get? d k = none := by
  rw [get?_eq_none]
  intro p hp hk
  exact h (hk ▸ List.mem_map_of_mem Prod.fst hp)

theorem get?_update {α : Type} {d2 : List (String × α)} (d : List (String × α))
    (k : String) (h : NodupKeys d2) :
    get? (update d d2) k = (get? d2 k).or (get? d k) := by
  induction d2 generalizing d with
  | nil =>
    rw [update_nil]
    simp [get?, Option.none_or]
  | cons q d2 ih =>
    obtain ⟨a, b⟩ := q
    simp only [NodupKeys, List.map_cons, List.nodup_cons] at h
    rw [update_cons, ih _ h.2]
    by_cases hak : a = k
    · subst hak
      have hnone : get? d2 a = none :=
        get?_eq_none_of_not_mem_keys h.1
      rw [hnone, get?_cons, if_pos rfl, get?_insert_self, Option.none_or]
      rfl
    · rw [get?_cons, if_neg hak, get?_insert_ne (Ne.symm hak)]

end PDict

theorem set_cuml_value_eq_translate (cfg : CumlClassCfg) (st : CumlParamsState)
    (k : String) (v : Value) :
    set_cuml_value cfg st k v =
      Except.map
        (fun w => { st with cuml_params := PDict.insert st.cuml_params k w })
        (translateValue cfg k v) := by
  unfold set_cuml_value translateValue
  cases PDict.get? cfg.param_value_mapping k with
  | none => rfl
  | some vm =>
    by_cases hs : isSupported (supportedValues vm) v = true
    · simp [hs, Except.map]
    · simp only [hs, Bool.false_eq_true, if_false]
      cases vmLookup vm v with
      | none => rfl
      | some s =>
        by_cases he : s = ""
        · simp [he, Except.map]
        · simp [he, Except.map]

theorem paramMap_set_cuml_value {cfg : CumlClassCfg} {st st2 : CumlParamsState}
    {k : String} {v : Value} (h : set_cuml_value cfg st k v = .ok st2) :
    st2.paramMap = st.paramMap := by
  rw [set_cuml_value_eq_translate] at h
  cases ht : translateValue cfg k v with
  | ok w =>
    rw [ht] at h
    simp only [Except.map] at h
    injection h with h
    rw [← h]
  | error e =>
    rw [ht] at h
    simp [Except.map] at h

theorem applyAll_append (cfg : CumlClassCfg) (st : CumlParamsState)
    (l1 l2 : List (String × Value)) :
    applyAll cfg st (l1 ++ l2) =
      match applyAll cfg st l1 with
      | .ok st2 => applyAll cfg st2 l2
      | .error e => .error e := by
  induction l1 generalizing st with
  | nil => rfl
  | cons q l1 ih =>
    obtain ⟨k, v⟩ := q
    simp only [List.cons_append, applyAll]
    cases setParamsStep cfg st k v with
    | ok st2 => exact ih st2
    | error e => rfl

theorem findAlias_singleton (cfg : CumlClassCfg) (k : String) (v : Value) :
    findAlias cfg [(k, v)] = none := by
  rw [findAlias, List.find?_eq_none]
  intro p _ hp
  rw [Bool.and_eq_true, Bool.and_eq_true] at hp
  obtain ⟨⟨hne, h1⟩, h2⟩ := hp
  have hne2 : p.1 ≠ p.2 := by simpa using hne
  have e1 : k = p.1 := by
    by_contra hc
    rw [PDict.contains, PDict.get?_cons, if_neg hc] at h1
    simp [PDict.get?] at h1
  have e2 : k = p.2 := by
    by_contra hc
    rw [PDict.contains, PDict.get?_cons, if_neg hc] at h2
    simp [PDict.get?] at h2
  exact hne2 (e1.symm.trans e2)

theorem getOrDefault?_isSome_of_hasDefault {cfg : CumlClassCfg}
    {st : CumlParamsState} {k : String} (h : hasDefault cfg k = true) :
    (getOrDefault? cfg st k).isSome = true := by
  unfold getOrDefault? currentValue?
  cases PDict.get? st.paramMap k with
  | none => exact h
  | some v => rfl

theorem get?_copy_cuml_params (src : List (String × Value))
    (h : PDict.NodupKeys src) (dst : List (String × Value)) (n : String) :
    PDict.get? (copy_cuml_params src dst) n =
      if PDict.contains dst n && PDict.contains src n then PDict.get? src n
      else PDict.get? dst n := by
  induction src generalizing dst with
  | nil =>
    simp [copy_cuml_params, PDict.contains, PDict.get?]
  | cons q src ih =>
    obtain ⟨k, v⟩ := q
    simp only [PDict.NodupKeys, List.map_cons, List.nodup_cons] at h
    have hknone : PDict.get? src k = none :=
      PDict.get?_eq_none_of_not_mem_keys h.1
    simp only [copy_cuml_params]
    rw [ih h.2]
    by_cases hnk : n = k
    · subst hnk
      cases hdst : PDict.get? dst n with
      | none =>
        simp [PDict.contains, hdst, hknone]
      | some w =>
        simp [PDict.contains, hdst, hknone, PDict.get?_insert_self,
          PDict.get?_cons]
    · have hcons : PDict.get? ((k, v) :: src) n = PDict.get? src n := by
        rw [PDict.get?_cons, if_neg (fun hh => hnk hh.symm)]
      cases hcdk : PDict.get? dst k with
      | none =>
        simp [PDict.contains, hcons, hcdk]
      | some w =>
        have hins : PDict.get? (PDict.insert dst k v) n = PDict.get? dst n :=
          PDict.get?_insert_ne hnk
        simp [PDict.contains, hcons, hcdk, hins]

/-- C7: `_copy_cuml_params` overwrites exactly those target-table entries
whose keys exist in both tables with the source's values, leaves every key
absent from the target untouched (no key is ever added), and returns the
target instance (whose Spark-side store is untouched). -/
theorem C7_copy_respects_target_keys (src dst : CumlParamsState)
    (h : PDict.NodupKeys src.cuml_params) (n : String) :
    PDict.get? (copyCumlParamsInto src dst).cuml_params n =
      (if PDict.contains dst.cuml_params n && PDict.contains src.cuml_params n
       then PDict.get? src.cuml_params n
       else PDict.get? dst.cuml_params n) ∧
    (copyCumlParamsInto src dst).paramMap = dst.paramMap :=
  ⟨get?_copy_cuml_params _ h _ _, rfl⟩

/-- C7 witness: the spec example, source `{a:1,b:2,c:3}` copied into target
`{a:0,b:0}`, read back at key `c`: the key is not added. -/
theorem C7_witness :
    PDict.get? (copyCumlParamsInto
        { paramMap := []
          cuml_params :=
            [("a", Value.vint 1), ("b", Value.vint 2), ("c", Value.vint 3)] }
        { paramMap := []
          cuml_params := [("a", Value.vint 0), ("b", Value.vint 0)] }).cuml_params "c" =
      (if PDict.contains [("a", Value.vint 0), ("b", Value.vint 0)] "c" &&
          PDict.contains
            [("a", Value.vint 1), ("b", Value.vint 2), ("c", Value.vint 3)] "c"
       then PDict.get?
            [("a", Value.vint 1), ("b", Value.vint 2), ("c", Value.vint 3)] "c"
       else PDict.get? [("a", Value.vint 0), ("b", Value.vint 0)] "c") ∧
    (copyCumlParamsInto
        { paramMap := []
          cuml_params :=
            [("a", Value.vint 1), ("b", Value.vint 2), ("c", Value.vint 3)] }
        { paramMap := []
          cuml_params := [("a", Value.vint 0), ("b", Value.vint 0)] }).paramMap = [] :=
  C7_copy_respects_target_keys
    { paramMap := []
      cuml_params := [("a", Value.vint 1), ("b", Value.vint 2), ("c", Value.vint 3)] }
    { paramMap := [], cuml_params := [("a", Value.vint 0), ("b", Value.vint 0)] }
    (by decide) "c"

theorem get?_get_default_params_from_func (c : List (String × Value))
    (ex : List String) (n : String) :
    PDict.get? (get_default_params_from_func c ex) n =
      if ex.contains n = true then none else PDict.get? c n := by
  induction c with
  | nil =>
    simp [get_default_params_from_func, PDict.get?]
  | cons q c ih =>
    obtain ⟨a, b⟩ := q
    simp only [get_default_params_from_func, List.filter_cons] at ih ⊢
    by_cases ha : ex.contains a = true
    · have ham : a ∈ ex := by simpa using ha
      rw [if_neg (by simp [ham]), ih]
      by_cases hn : ex.contains n = true
      · rw [if_pos hn, if_pos hn]
      · rw [if_neg hn, if_neg hn, PDict.get?_cons,
          if_neg (fun hh : a = n => hn (hh ▸ ha))]
    · have ham : a ∉ ex := by simpa using ha
      rw [if_pos (by simp [ham])]
      by_cases han : a = n
      · subst han
        rw [PDict.get?_cons, if_pos rfl, if_neg ha, PDict.get?_cons, if_pos rfl]
      · rw [PDict.get?_cons, if_neg han, ih]
        by_cases hn : ex.contains n = true
        · rw [if_pos hn, if_pos hn]
        · rw [if_neg hn, if_neg hn, PDict.get?_cons, if_neg han]

theorem nodupKeys_get_default_params_from_func {c : List (String × Value)}
    {ex : List String} (h : PDict.NodupKeys c) :
    PDict.NodupKeys (get_default_params_from_func c ex) :=
  List.Nodup.sublist ((List.filter_sublist c).map Prod.fst) h

theorem findSome?_congr {α β : Type} {f g : α → Option β} {l : List α}
    (h : ∀ x ∈ l, f x = g x) : l.findSome? f = l.findSome? g := by
  induction l with
  | nil => rfl
  | cons a l ih =>
    rw [List.findSome?_cons, List.findSome?_cons, h a (List.mem_cons_self a l),
      ih (fun x hx => h x (List.mem_cons_of_mem a hx))]

theorem findSome?_const_none {α β : Type} (l : List α) :
    l.findSome? (fun _ => (none : Option β)) = none := by
  induction l with
  | nil => rfl
  | cons a l ih =>
    rw [List.findSome?_cons]
    exact ih

theorem findSome?_singleton {α β : Type} (f : α → Option β) (a : α) :
    [a].findSome? f = f a := by
  rw [List.findSome?_cons]
  cases f a <;> rfl

theorem get?_defaults_merge (cfg : CumlClassCfg)
    (L : List (List (String × Value)))
    (h : ∀ c ∈ L, PDict.NodupKeys c) (acc : List (String × Value)) (n : String) :
    PDict.get?
      (L.foldl
        (fun acc c => PDict.update acc (get_default_params_from_func c cfg.param_excludes)) acc) n =
      (L.reverse.findSome?
        (fun c => PDict.get? (get_default_params_from_func c cfg.param_excludes) n)).or
        (PDict.get? acc n) := by
  induction L generalizing acc with
  | nil => simp [List.findSome?, Option.none_or]
  | cons c L ih =>
    simp only [List.foldl_cons, List.reverse_cons]
    rw [ih (fun c2 hc2 => h c2 (List.mem_cons_of_mem c hc2)),
      PDict.get?_update _ _
        (nodupKeys_get_default_params_from_func (h c (List.mem_cons_self c L))),
      List.findSome?_append, findSome?_singleton, Option.or_assoc]

/-- C8: `_get_cuml_params_default` merges the per-class introspected
constructor defaults, removing the excluded names, with the default from the
later class in the list winning on a name collision: the merged table at `n`
is `none` for excluded names, and otherwise the first hit when scanning the
class list from its end. -/
theorem C8_defaults_merge_order (cfg : CumlClassCfg)
    (h : ∀ c ∈ cfg.cuml_cls, PDict.NodupKeys c) (n : String) :
    PDict.get? (get_cuml_params_default cfg) n =
      if cfg.param_excludes.contains n = true then none
      else cfg.cuml_cls.reverse.findSome? (fun c => PDict.get? c n) := by
  unfold get_cuml_params_default
  rw [get?_defaults_merge cfg _ h [] n]
  simp only [PDict.get?, Option.or_none]
  by_cases hn : cfg.param_excludes.contains n = true
  · rw [if_pos hn,
      findSome?_congr (fun c _ => by
        rw [get?_get_default_params_from_func, if_pos hn]),
      findSome?_const_none]
  · rw [if_neg hn]
    exact findSome?_congr (fun c _ => by
      rw [get?_get_default_params_from_func, if_neg hn])

/-- C8 witness: two classes share parameter `x` with defaults 1 and 2; the
merged table maps `x` to 2 (the later class wins). -/
theorem C8_witness :
    PDict.get? (get_cuml_params_default mergeCfg) "x" =
      (if mergeCfg.param_excludes.contains "x" = true then none
       else mergeCfg.cuml_cls.reverse.findSome? (fun c => PDict.get? c "x")) ∧
    PDict.get? (get_cuml_params_default mergeCfg) "x" = some (Value.vint 2) :=
  ⟨C8_defaults_merge_order mergeCfg (by decide) "x", by decide⟩

/-- C10: stored values are closed under re-application.  If
`_set_cuml_value(k, v)` succeeds and the table now holds `w` at `k`, then
`_set_cuml_value(k, w)` succeeds and changes nothing: every successfully
stored value (including a translated one) lies in the supported set for `k`,
so it is stored as-is. -/
theorem C10_stored_values_closed (cfg : CumlClassCfg)
    (st st2 : CumlParamsState) (k : String) (v w : Value)
    (h : set_cuml_value cfg st k v = .ok st2)
    (hw : PDict.get? st2.cuml_params k = some w) :
    set_cuml_value cfg st2 k w = .ok st2 := by
  unfold set_cuml_value at h ⊢
  cases hm : PDict.get? cfg.param_value_mapping k with
  | none =>
    simp only [hm] at h ⊢
    injection h with h2
    subst h2
    rw [PDict.get?_insert_self] at hw
    obtain rfl : v = w := by injection hw
    rw [PDict.insert_of_get? PDict.get?_insert_self]
  | some vm =>
    simp only [hm] at h ⊢
    by_cases hs : isSupported (supportedValues vm) v = true
    · rw [if_pos hs] at h
      injection h with h2
      subst h2
      rw [PDict.get?_insert_self] at hw
      obtain rfl : v = w := by injection hw
      rw [if_pos hs, PDict.insert_of_get? PDict.get?_insert_self]
    · rw [if_neg hs] at h
      cases hl : vmLookup vm v with
      | none =>
        simp only [hl] at h
        exact absurd h (by simp)
      | some s =>
        simp only [hl] at h
        by_cases he : s = ""
        · rw [if_pos he] at h
          exact absurd h (by simp)
        · rw [if_neg he] at h
          injection h with h2
          subst h2
          rw [PDict.get?_insert_self] at hw
          obtain rfl : Value.vstr s = w := by injection hw
          have hmem : s ∈ supportedValues vm := by
            cases v with
            | vstr x =>
              simp only [vmLookup] at hl
              exact List.mem_filterMap.mpr
                ⟨(x, some s),
                  PDict.mem_of_get?_eq_some (Option.join_eq_some.mp hl), rfl⟩
            | vint m => simp [vmLookup] at hl
            | vbool b => simp [vmLookup] at hl
            | vnone => simp [vmLookup] at hl
          have hsup : isSupported (supportedValues vm) (Value.vstr s) = true :=
            List.elem_eq_true_of_mem hmem
          rw [if_pos hsup, PDict.insert_of_get? PDict.get?_insert_self]

/-- C10 witness: storing `squaredError` for `loss` stores the translated
`squared_loss`; re-applying the stored `squared_loss` is accepted and is a
no-op. -/
theorem C10_witness :
    set_cuml_value exCfg
        { paramMap := [], cuml_params := [("loss", Value.vstr "squared_loss")] }
        "loss" (Value.vstr "squared_loss") =
      .ok { paramMap := [], cuml_params := [("loss", Value.vstr "squared_loss")] } :=
  C10_stored_values_closed exCfg exSt0
    { paramMap := [], cuml_params := [("loss", Value.vstr "squared_loss")] }
    "loss" (Value.vstr "squaredError") (Value.vstr "squared_loss")
    (by rfl) (by rfl)

/-- C1 counterexample: with the value mapping `{a: ""}` for native param `k`,
the value `a` is a source key whose mapped target (the empty string) is
non-null and not already supported, yet `_set_cuml_value` raises
UnsupportedValueError instead of storing it, because the Python guard
`if mapped_v:` tests truthiness rather than `is not None`. -/
theorem C1_counterexample :
    PDict.get? [("a", some "")] "a" = some (some "") ∧
    isSupported (supportedValues [("a", some "")]) (Value.vstr "a") = false ∧
    set_cuml_value emptyTargetCfg exSt0 "k" (Value.vstr "a") =
      .error (.unsupportedValue (Value.vstr "a") "k" [""]) :=
  ⟨rfl, rfl, rfl⟩

/-- C1 (amended): for a native param `k` with a value mapping and a value `v`
not already in the supported set, `_set_cuml_value` stores the mapped target
when `v` is a source key whose target is non-null and non-empty (truthy), and
raises UnsupportedValueError naming `k`, the offending value and the
supported set — storing nothing — when the mapped target is null or the
empty string, or `v` is not a source key at all. -/
theorem C1_value_translation (cfg : CumlClassCfg) (st : CumlParamsState)
    (k : String) (v : Value) (vm : List (String × Option String))
    (hvm : PDict.get? cfg.param_value_mapping k = some vm)
    (hns : isSupported (supportedValues vm) v = false) :
    (∀ s, vmLookup vm v = some s → s ≠ "" →
        set_cuml_value cfg st k v =
          .ok { st with cuml_params := PDict.insert st.cuml_params k (.vstr s) }) ∧
    ((vmLookup vm v = none ∨ vmLookup vm v = some "") →
        set_cuml_value cfg st k v =
          .error (.unsupportedValue v k (supportedValues vm))) := by
  unfold set_cuml_value
  simp only [hvm, hns, Bool.false_eq_true, if_false]
  constructor
  · intro s hs hne
    simp only [hs, if_neg hne]
  · intro hd
    cases hd with
    | inl hn => simp only [hn]
    | inr he => simp [he]

/-- C1 witness: the docstring mapping sends `squaredError` to
`squared_loss`, a truthy target, which is stored. -/
theorem C1_witness :
    set_cuml_value exCfg exSt0 "loss" (Value.vstr "squaredError") =
      .ok { exSt0 with
            cuml_params :=
              PDict.insert exSt0.cuml_params "loss" (.vstr "squared_loss") } :=
  (C1_value_translation exCfg exSt0 "loss" (Value.vstr "squaredError")
      [("squaredError", some "squared_loss"), ("huber", none)] rfl rfl).1
    "squared_loss" rfl (by decide)

/-- C5 counterexample: `clear` resets mapped param `lossFn` (default
`squaredError`) and writes the raw default into the table, so the table holds
`squaredError`; had the single-value setter been applied, as the claim
states, the table would hold the translated `squared_loss` (second conjunct
shows what the setter produces for the same value). -/
theorem C5_counterexample :
    clear exCfg exStC5 "lossFn" =
      .ok { paramMap := [], cuml_params := [("loss", Value.vstr "squaredError")] } ∧
    set_cuml_value exCfg
        { paramMap := [], cuml_params := [("loss", Value.vstr "squared_loss")] }
        "loss" (Value.vstr "squaredError") =
      .ok { paramMap := [], cuml_params := [("loss", Value.vstr "squared_loss")] } ∧
    Value.vstr "squaredError" ≠ Value.vstr "squared_loss" :=
  ⟨rfl, rfl, by decide⟩

/-- C5 (amended): for a name-mapped orchestration parameter with a registered
default, `clear` removes the explicit value and writes the registered default
directly into the Native Parameter Table under the mapped native name — a
plain dict assignment, without applying the single-value setter or any value
mapping. -/
theorem C5_clear_writes_raw_default (cfg : CumlClassCfg) (st : CumlParamsState)
    (p n : String) (d : Value)
    (hm : PDict.get? cfg.param_mapping p = some n)
    (hd : PDict.get? cfg.spark_defaults p = some d) :
    clear cfg st p =
      .ok { paramMap := PDict.eraseKey st.paramMap p
            cuml_params := PDict.insert st.cuml_params n d } := by
  unfold clear
  simp only [hm]
  have hg : getOrDefault? cfg
      { st with paramMap := PDict.eraseKey st.paramMap p } p = some d := by
    simp [getOrDefault?, currentValue?, PDict.get?_eraseKey, hd]
  simp only [hg]

/-- C5 witness: clearing `lossFn` stores the raw default `squaredError`. -/
theorem C5_witness :
    clear exCfg exStC5 "lossFn" =
      .ok { paramMap := PDict.eraseKey exStC5.paramMap "lossFn"
            cuml_params :=
              PDict.insert exStC5.cuml_params "loss" (Value.vstr "squaredError") } :=
  C5_clear_writes_raw_default exCfg exStC5 "lossFn" "loss"
    (Value.vstr "squaredError") rfl rfl

theorem set_cuml_value_fails {cfg : CumlClassCfg} {n : String} {v : Value}
    {vm : List (String × Option String)}
    (hvm : PDict.get? cfg.param_value_mapping n = some vm)
    (hns : isSupported (supportedValues vm) v = false)
    (hlk : vmLookup vm v = none ∨ vmLookup vm v = some "")
    (st : CumlParamsState) :
    set_cuml_value cfg st n v =
      .error (.unsupportedValue v n (supportedValues vm)) := by
  unfold set_cuml_value
  simp only [hvm, hns, Bool.false_eq_true, if_false]
  cases hlk with
  | inl h => simp only [h]
  | inr h => simp [h]

/-- C2: if some name-mapping pair with two distinct names has both names as
keys of the batch, `set_params` raises AmbiguousAliasError and the error
escapes before anything is applied: the state carried out with the error is
the caller's state, unchanged on both the Spark side and the table side. -/
theorem C2_alias_rejected (cfg : CumlClassCfg) (st : CumlParamsState)
    (kwargs : List (String × Value)) (sp cp : String)
    (hmem : (sp, cp) ∈ cfg.param_mapping) (hne : sp ≠ cp)
    (h1 : PDict.contains kwargs sp = true)
    (h2 : PDict.contains kwargs cp = true) :
    ∃ a b, set_params cfg st kwargs = .error (.ambiguousAlias a b, st) := by
  unfold set_params
  have hsome : (findAlias cfg kwargs).isSome = true := by
    unfold findAlias
    rw [List.find?_isSome]
    exact ⟨(sp, cp), hmem, by simp [hne, h1, h2]⟩
  obtain ⟨q, hq⟩ := Option.isSome_iff_exists.mp hsome
  obtain ⟨a, b⟩ := q
  rw [hq]
  exact ⟨a, b, rfl⟩

/-- C2 witness: setting both `lossFn` and its alias `loss` in one batch is
rejected with the state unchanged. -/
theorem C2_witness :
    ∃ a b, set_params exCfg exStInit
        [("lossFn", Value.vint 1), ("loss", Value.vint 2)] =
      .error (.ambiguousAlias a b, exStInit) :=
  C2_alias_rejected exCfg exStInit
    [("lossFn", Value.vint 1), ("loss", Value.vint 2)] "lossFn" "loss"
    (by decide) (by decide) (by decide) (by decide)

/-- C3: a batch key that is neither a declared Spark param nor a key of the
current `cuml_params` table makes `set_params` raise UnknownParameterError
for it once the loop reaches it (stated for a well-formed configuration,
in which every name-mapping source is a declared Spark param, as in every
concrete estimator class): the keys before it stay applied and nothing after
it runs. -/
theorem C3_unknown_param (cfg : CumlClassCfg) (st st1 : CumlParamsState)
    (pre rest : List (String × Value)) (k : String) (v : Value)
    (hwf : ∀ p ∈ cfg.param_mapping, hasParam cfg p.1 = true)
    (halias : findAlias cfg (pre ++ (k, v) :: rest) = none)
    (hpre : applyAll cfg st pre = .ok st1)
    (hk : hasParam cfg k = false)
    (hc : PDict.contains st1.cuml_params k = false) :
    set_params cfg st (pre ++ (k, v) :: rest) =
      .error (.unsupportedParam k, st1) := by
  unfold set_params
  rw [halias, applyAll_append, hpre]
  have hmap : PDict.contains cfg.param_mapping k = false := by
    cases hcm : PDict.contains cfg.param_mapping k with
    | false => rfl
    | true =>
      obtain ⟨n, hn⟩ := Option.isSome_iff_exists.mp hcm
      have hw := hwf (k, n) (PDict.mem_of_get?_eq_some hn)
      rw [hk] at hw
      cases hw
  have hstep : setParamsStep cfg st1 k v = .error (.unsupportedParam k, st1) := by
    unfold setParamsStep afterCuml
    simp [hk, hc, hmap]
  simp only [applyAll, hstep]

/-- C3 witness: an unknown key raises UnknownParameterError. -/
theorem C3_witness :
    set_params exCfg exSt0 [("nope", Value.vint 1)] =
      .error (.unsupportedParam "nope", exSt0) :=
  C3_unknown_param exCfg exSt0 exSt0 [] [] "nope" (Value.vint 1)
    (by decide) rfl rfl rfl rfl

/-- C9: when the value mapping rejects the value of batch key `k` (a Spark
param name mapped to native name `n`), `set_params` raises
UnsupportedValueError at `k`: the effects of the keys before `k` (state
`st1`) remain applied, `k`'s own Spark-side assignment has happened but its
table write is aborted — the table carried out with the error equals `st1`'s
table — and no key after `k` is processed. -/
theorem C9_partial_application (cfg : CumlClassCfg) (st st1 : CumlParamsState)
    (pre rest : List (String × Value)) (k n : String) (v : Value)
    (vm : List (String × Option String))
    (halias : findAlias cfg (pre ++ (k, v) :: rest) = none)
    (hpre : applyAll cfg st pre = .ok st1)
    (hp : hasParam cfg k = true)
    (hmap : PDict.get? cfg.param_mapping k = some n)
    (hvm : PDict.get? cfg.param_value_mapping n = some vm)
    (hns : isSupported (supportedValues vm) v = false)
    (hlk : vmLookup vm v = none ∨ vmLookup vm v = some "") :
    set_params cfg st (pre ++ (k, v) :: rest) =
      .error (.unsupportedValue v n (supportedValues vm), sparkSet st1 k v) ∧
    (sparkSet st1 k v).cuml_params = st1.cuml_params := by
  constructor
  · unfold set_params
    rw [halias, applyAll_append, hpre]
    have hstep : setParamsStep cfg st1 k v =
        .error (.unsupportedValue v n (supportedValues vm), sparkSet st1 k v) := by
      unfold setParamsStep
      simp only [hp, if_true, hmap,
        set_cuml_value_fails hvm hns hlk (sparkSet st1 k v)]
    simp only [applyAll, hstep]
  · rfl

/-- C9 witness: in the batch `{alpha: 7, lossFn: huber, alpha2: 9}` the
unsupported `huber` aborts at `lossFn`: `alpha: 7` stays applied, the table
entry for `loss` is untouched, and the trailing key is never applied. -/
theorem C9_witness :
    set_params exCfg exStInit
        [("alpha", Value.vint 7), ("lossFn", Value.vstr "huber"),
          ("alpha", Value.vint 9)] =
      .error (.unsupportedValue (Value.vstr "huber") "loss"
          (supportedValues
            [("squaredError", some "squared_loss"), ("huber", none)]),
        sparkSet
          { paramMap := []
            cuml_params :=
              [("loss", Value.vstr "squared_loss"), ("alpha", Value.vint 7)] }
          "lossFn" (Value.vstr "huber")) ∧
    (sparkSet
        { paramMap := []
          cuml_params :=
            [("loss", Value.vstr "squared_loss"), ("alpha", Value.vint 7)] }
        "lossFn" (Value.vstr "huber")).cuml_params =
      ({ paramMap := []
         cuml_params :=
           [("loss", Value.vstr "squared_loss"), ("alpha", Value.vint 7)] }
        : CumlParamsState).cuml_params :=
  C9_partial_application exCfg exStInit
    { paramMap := []
      cuml_params :=
        [("loss", Value.vstr "squared_loss"), ("alpha", Value.vint 7)] }
    [("alpha", Value.vint 7)] [("alpha", Value.vint 9)]
    "lossFn" "loss" (Value.vstr "huber")
    [("squaredError", some "squared_loss"), ("huber", none)]
    rfl rfl rfl rfl rfl rfl (Or.inl rfl)

theorem backSetGo_cuml_params (k : String) (v : Value)
    (l : List (String × String)) (st : CumlParamsState) :
    (backSetGo k v l st).cuml_params = st.cuml_params := by
  induction l generalizing st with
  | nil => rfl
  | cons q l ih =>
    obtain ⟨sp, cp⟩ := q
    simp only [backSetGo]
    by_cases hcp : cp = k
    · rw [if_pos hcp, ih]
      rfl
    · rw [if_neg hcp, ih]

theorem backSetGo_paramMap_get? (k : String) (v : Value)
    (l : List (String × String)) (st : CumlParamsState) (x : String) :
    PDict.get? (backSetGo k v l st).paramMap x =
      if l.any (fun p => decide (p.1 = x) && decide (p.2 = k)) then some v
      else PDict.get? st.paramMap x := by
  induction l generalizing st with
  | nil => simp [backSetGo]
  | cons q l ih =>
    obtain ⟨sp, cp⟩ := q
    simp only [backSetGo, List.any_cons]
    by_cases hcp : cp = k
    · rw [if_pos hcp, ih]
      by_cases hsp : sp = x
      · subst hsp
        have hins : PDict.get? (sparkSet st sp v).paramMap sp = some v :=
          PDict.get?_insert_self
        simp [hcp, hins]
      · have hins : PDict.get? (sparkSet st sp v).paramMap x =
            PDict.get? st.paramMap x :=
          PDict.get?_insert_ne (fun hh => hsp hh.symm)
        simp [hcp, hsp, hins]
    · rw [if_neg hcp, ih]
      simp [hcp]

theorem backSetGo_noop (k : String) (v : Value) (l : List (String × String))
    (st : CumlParamsState)
    (h : ∀ sp cp, (sp, cp) ∈ l → cp = k → PDict.get? st.paramMap sp = some v) :
    backSetGo k v l st = st := by
  induction l generalizing st with
  | nil => rfl
  | cons q l ih =>
    obtain ⟨sp, cp⟩ := q
    simp only [backSetGo]
    by_cases hcp : cp = k
    · rw [if_pos hcp]
      have hst : sparkSet st sp v = st := by
        unfold sparkSet
        rw [PDict.insert_of_get? (h sp cp (List.mem_cons_self _ _) hcp)]
      rw [hst]
      exact ih st (fun sp2 cp2 hm hk => h sp2 cp2 (List.mem_cons_of_mem _ hm) hk)
    · rw [if_neg hcp]
      exact ih st (fun sp2 cp2 hm hk => h sp2 cp2 (List.mem_cons_of_mem _ hm) hk)

theorem backSetGo_idem (k : String) (v : Value) (l : List (String × String))
    (st : CumlParamsState) :
    backSetGo k v l (backSetGo k v l st) = backSetGo k v l st := by
  apply backSetGo_noop
  intro sp cp hm hk
  rw [backSetGo_paramMap_get?,
    if_pos (List.any_eq_true.mpr ⟨(sp, cp), hm, by simp [hk]⟩)]

theorem afterCuml_hasParam {cfg : CumlClassCfg} {k : String} (v : Value)
    (hp : hasParam cfg k = true) (st : CumlParamsState) :
    afterCuml cfg st k v = .ok st := by
  unfold afterCuml
  simp [hp]

theorem set_cuml_value_valid {cfg : CumlClassCfg} {n : String} {v : Value}
    (hv : ∀ vm, PDict.get? cfg.param_value_mapping n = some vm →
      isSupported (supportedValues vm) v = true) (st : CumlParamsState) :
    set_cuml_value cfg st n v =
      .ok { st with cuml_params := PDict.insert st.cuml_params n v } := by
  unfold set_cuml_value
  cases hm : PDict.get? cfg.param_value_mapping n with
  | none => simp only [hm]
  | some vm => simp only [hm, hv vm hm, if_true]

/-- C6: if `v` is already a valid native-side value for `k`'s native name
(that name has no value mapping, or `v` lies in its supported set) and `k`
is settable (a declared Spark param or an existing table key), then
`set_params {k: v}` succeeds and applying it a second time is not rejected
and returns the state of the first application unchanged — in particular the
Native Parameter Table after two applications equals the table after one. -/
theorem C6_set_batch_idempotent (cfg : CumlClassCfg) (st : CumlParamsState)
    (k : String) (v : Value)
    (hset : hasParam cfg k = true ∨ PDict.contains st.cuml_params k = true)
    (hvalid : ∀ vm,
      PDict.get? cfg.param_value_mapping
          ((PDict.get? cfg.param_mapping k).getD k) = some vm →
        isSupported (supportedValues vm) v = true) :
    ∃ st1, set_params cfg st [(k, v)] = .ok st1 ∧
      set_params cfg st1 [(k, v)] = .ok st1 := by
  suffices h : ∃ st1, setParamsStep cfg st k v = .ok st1 ∧
      setParamsStep cfg st1 k v = .ok st1 by
    obtain ⟨st1, h1, h2⟩ := h
    refine ⟨st1, ?_, ?_⟩
    · unfold set_params
      rw [findAlias_singleton]
      simp only [applyAll, h1]
    · unfold set_params
      rw [findAlias_singleton]
      simp only [applyAll, h2]
  by_cases hp : hasParam cfg k = true
  · cases hm : PDict.get? cfg.param_mapping k with
    | some n =>
      have hv : ∀ vm, PDict.get? cfg.param_value_mapping n = some vm →
          isSupported (supportedValues vm) v = true := by
        intro vm hvm2
        apply hvalid vm
        rw [hm]
        exact hvm2
      refine ⟨{ paramMap := PDict.insert st.paramMap k v,
                cuml_params := PDict.insert st.cuml_params n v }, ?_, ?_⟩
      · simp only [setParamsStep, hp, if_true, hm]
        rw [set_cuml_value_valid hv]
        exact afterCuml_hasParam v hp _
      · simp only [setParamsStep, hp, if_true, hm]
        have e1 : sparkSet
            { paramMap := PDict.insert st.paramMap k v,
              cuml_params := PDict.insert st.cuml_params n v } k v =
            { paramMap := PDict.insert st.paramMap k v,
              cuml_params := PDict.insert st.cuml_params n v } := by
          simp only [sparkSet]
          rw [PDict.insert_of_get? PDict.get?_insert_self]
        rw [e1, set_cuml_value_valid hv]
        have e2 : ({ paramMap := PDict.insert st.paramMap k v,
                     cuml_params :=
                       PDict.insert (PDict.insert st.cuml_params n v) n v } :
              CumlParamsState) =
            { paramMap := PDict.insert st.paramMap k v,
              cuml_params := PDict.insert st.cuml_params n v } := by
          rw [PDict.insert_of_get? PDict.get?_insert_self]
        exact (afterCuml_hasParam v hp _).trans (congrArg Except.ok e2)
    | none =>
      refine ⟨sparkSet st k v, ?_, ?_⟩
      · simp only [setParamsStep, hp, if_true, hm]
        exact afterCuml_hasParam v hp _
      · simp only [setParamsStep, hp, if_true, hm]
        have e1 : sparkSet (sparkSet st k v) k v = sparkSet st k v := by
          simp only [sparkSet]
          rw [PDict.insert_of_get? PDict.get?_insert_self]
        rw [e1]
        exact afterCuml_hasParam v hp _
  · have hpf : hasParam cfg k = false := by
      cases hpp : hasParam cfg k with
      | false => rfl
      | true => exact absurd hpp hp
    have hc : PDict.contains st.cuml_params k = true := by
      rcases hset with h | h
      · exact absurd h hp
      · exact h
    set X0 : CumlParamsState :=
      { st with cuml_params := PDict.insert st.cuml_params k v } with hX0
    set st1 : CumlParamsState := backSetGo k v cfg.param_mapping X0 with hst1
    have hcu : st1.cuml_params = PDict.insert st.cuml_params k v := by
      rw [hst1, backSetGo_cuml_params]
    have hcontains1 : PDict.contains st1.cuml_params k = true := by
      simp [PDict.contains, hcu, PDict.get?_insert_self]
    have hafter : afterCuml cfg st k v = .ok st1 := by
      simp only [afterCuml, hc, hpf, Bool.not_false, Bool.and_true, if_true,
        ← hX0, ← hst1, hcontains1, Bool.not_true, Bool.and_false,
        Bool.false_eq_true, if_false]
    have hrec : ({ st1 with
        cuml_params := PDict.insert st1.cuml_params k v } :
          CumlParamsState) = st1 := by
      have hins : PDict.insert st1.cuml_params k v = st1.cuml_params := by
        rw [hcu, PDict.insert_of_get? PDict.get?_insert_self]
      rw [hins]
    have hidem : backSetGo k v cfg.param_mapping st1 = st1 := by
      rw [hst1]
      exact backSetGo_idem k v cfg.param_mapping X0
    have hafter2 : afterCuml cfg st1 k v = .ok st1 := by
      simp only [afterCuml, hcontains1, hpf, Bool.not_false, Bool.and_true,
        if_true, hrec, hidem, Bool.not_true, Bool.and_false,
        Bool.false_eq_true, if_false]
    refine ⟨st1, ?_, ?_⟩
    · simp only [setParamsStep, hpf, Bool.false_eq_true, if_false]
      exact hafter
    · simp only [setParamsStep, hpf, Bool.false_eq_true, if_false]
      exact hafter2

/-- C6 witness: `squared_loss` is already a native-valid value for `loss`;
setting `lossFn` to it twice is accepted and leaves the state of the first
application unchanged. -/
theorem C6_witness :
    ∃ st1, set_params exCfg exStInit
        [("lossFn", Value.vstr "squared_loss")] = .ok st1 ∧
      set_params exCfg st1 [("lossFn", Value.vstr "squared_loss")] = .ok st1 :=
  C6_set_batch_idempotent exCfg exStInit "lossFn" (Value.vstr "squared_loss")
    (Or.inl rfl)
    (fun vm h => by
      have h2 : (some [("squaredError", some "squared_loss"), ("huber", none)] :
          Option (List (String × Option String))) = some vm := h
      injection h2 with h3
      subst h3
      decide)

/-- C4 counterexample: orchestration param `k` (mapped to `n_components`)
currently has an explicit value 5 but no registered default.
`initialize_cuml_params` checks only `hasDefault`, so it skips `k`: the table
keeps the introspected default 0, not the explicit value 5 that the claim
("default or explicit value") requires it to reflect. -/
theorem C4_counterexample :
    getOrDefault? noDefaultCfg noDefaultSt "k" = some (Value.vint 5) ∧
    init_cuml_params noDefaultCfg noDefaultSt =
      .ok { paramMap := [("k", Value.vint 5)],
            cuml_params := [("n_components", Value.vint 0)] } ∧
    some (Value.vint 0) ≠ some (Value.vint 5) :=
  ⟨rfl, rfl, by decide⟩

theorem initGo_eq_spec (cfg : CumlClassCfg) (l : List (String × String)) :
    ∀ st : CumlParamsState,
      initGo cfg l st =
        match translatedPairs cfg st.paramMap
            (l.filter (fun p => hasDefault cfg p.1)) with
        | .ok pairs =>
          .ok { st with cuml_params := PDict.update st.cuml_params pairs }
        | .error e => .error e := by
  induction l with
  | nil =>
    intro st
    simp [initGo, translatedPairs, PDict.update_nil]
  | cons q l ih =>
    intro st
    obtain ⟨sp, cp⟩ := q
    by_cases hd : hasDefault cfg sp = true
    · simp only [initGo, hd, if_true, List.filter_cons]
      cases hv : currentValue? cfg st.paramMap sp with
      | none =>
        have hsome := @getOrDefault?_isSome_of_hasDefault cfg st sp hd
        unfold getOrDefault? at hsome
        rw [hv] at hsome
        simp at hsome
      | some v =>
        have hgod : getOrDefault? cfg st sp = some v := hv
        simp only [hgod, translatedPairs, hv]
        cases ht : translateValue cfg cp v with
        | error e =>
          have hset : set_cuml_value cfg st cp v = .error e := by
            rw [set_cuml_value_eq_translate, ht]
            rfl
          simp only [hset, ht]
        | ok w =>
          have hset : set_cuml_value cfg st cp v =
              .ok { st with cuml_params := PDict.insert st.cuml_params cp w } := by
            rw [set_cuml_value_eq_translate, ht]
            rfl
          simp only [hset, ht]
          rw [ih]
          cases hp2 : translatedPairs cfg st.paramMap
              (l.filter (fun p => hasDefault cfg p.1)) with
          | ok ps => simp only [hp2, PDict.update_cons]
          | error e => simp only [hp2]
    · have hdf : hasDefault cfg sp = false := by
        cases hdd : hasDefault cfg sp with
        | false => rfl
        | true => exact absurd hdd hd
      simp only [initGo, hdf, Bool.false_eq_true, if_false, List.filter_cons]
      exact ih st

/-- C4 (amended): after `initialize_cuml_params` the Native Parameter Table
equals the introspected native defaults overlaid, for every orchestration
parameter name in the name mapping that currently has a registered default,
with its current value (explicit if set, else the default) translated by the
single-value setter's value mapping and applied to the mapped native name —
the first failing translation aborts initialization with that error.  In
particular (second conjunct, the spec scenario), if `k` maps to
`n_components` and `k`'s default is 3, the table holds `n_components: 3`. -/
theorem C4_init_overlays_defaults (cfg : CumlClassCfg) (st : CumlParamsState) :
    (init_cuml_params cfg st =
      match initTableSpec cfg st with
      | .ok t => .ok { st with cuml_params := t }
      | .error e => .error e) ∧
    init_cuml_params scenarioCfg exSt0 =
      .ok { paramMap := [], cuml_params := [("n_components", Value.vint 3)] } := by
  constructor
  · unfold init_cuml_params initTableSpec
    rw [initGo_eq_spec]
    cases hp2 : translatedPairs cfg st.paramMap
        (cfg.param_mapping.filter (fun p => hasDefault cfg p.1)) with
    | ok ps => simp only [hp2]
    | error e => simp only [hp2]
  · rfl
